import Mathlib

/-!
Shallow embedding of the Chilean RUT utility library (src/rut.util.ts).
Strings are modelled as `List Char`; the JavaScript regular expressions
are modelled by the corresponding character filters.
-/

/-- Strings of the TypeScript source, modelled as lists of characters. -/
abbrev Str := List Char

namespace Rut

/-- Character class of the regexes `/[^\dkK]/gi` and `/[^0-9kK]/g`
(a character they do NOT delete): a decimal digit or the letter k/K. -/
def isRutChar (c : Char) : Bool := c.isDigit || c = 'k' || c = 'K'

/-- `cleanRut`: `input.replace(/[^\dkK]/gi, "").toUpperCase()` —
keep only digits and k/K, then upper-case. -/
def cleanRut (input : Str) : Str := (input.filter isRutChar).map Char.toUpper

/-- The replacement `s.replace(CLEAN_REGEX, "")` with `CLEAN_REGEX = /[^0-9kK]/g`
used inside `deconstructRut` (no upper-casing). -/
def dropNonRut (s : Str) : Str := s.filter isRutChar

/-- `deconstructRut`: split a RUT into digits and verifier, following the
source's ordered rule list (K-terminated; pure digits by length 9/8/6-7;
mixed or atypical length; degenerate). -/
def deconstructRut (input : Str) : Str × Str :=
  let raw := cleanRut input
  if raw = [] then ([], []) else
  let lastChar := raw.getLastD ' '
  if lastChar = 'k' ∨ lastChar = 'K' then
    (raw.dropLast, ['K'])
  else if raw.all Char.isDigit then
    if raw.length = 9 then (raw.dropLast, [lastChar])
    else if raw.length = 8 then (raw, [])
    else if 6 ≤ raw.length ∧ raw.length ≤ 7 then (raw, [])
    else if 1 < raw.length then (dropNonRut raw.dropLast, [lastChar.toUpper])
    else (dropNonRut raw, [])
  else if 1 < raw.length then (dropNonRut raw.dropLast, [lastChar.toUpper])
  else (dropNonRut raw, [])

/-- One step of the verifier loop: add `digit * factor` to the sum and
advance the factor (`factor === 7 ? 2 : factor + 1`). -/
def dvStep (acc : Nat × Nat) (c : Char) : Nat × Nat :=
  (acc.1 + (c.toNat - 48) * acc.2, if acc.2 = 7 then 2 else acc.2 + 1)

/-- `calculateRutVerifier`: the weighted modulo-11 check character, `none`
standing for the TypeScript `null`.  The loop runs over the digits from
right to left with the factor starting at 2; the internal memo of the
source is a pure cache and is omitted. -/
def calculateRutVerifier (digitsInput : Str) : Option Str :=
  if digitsInput = [] then none else
  let digits := digitsInput.filter Char.isDigit
  if ¬ (digits ≠ [] ∧ digits.all Char.isDigit) then none else
  let sum := (digits.reverse.foldl dvStep (0, 2)).1
  let remainder := sum % 11
  let dvNum := 11 - remainder
  some (if dvNum = 11 then ['0'] else if dvNum = 10 then ['K'] else Nat.toDigits 10 dvNum)

/-- `isDigitsValid`: after stripping non-digits the remainder matches
`/^\d{6,8}$/`. -/
def isDigitsValid (digitsInput : Str) : Bool :=
  if digitsInput = [] then false else
  let digits := digitsInput.filter Char.isDigit
  digits.all Char.isDigit && decide (6 ≤ digits.length) && decide (digits.length ≤ 8)

/-- `isSuspiciousRut`: strip non-digits; empty is suspicious; otherwise the
repeated-pattern regex `/^(\d)\1+$/` (a digit followed by one or more
copies of itself). -/
def isSuspiciousRut (digitsInput : Str) : Bool :=
  let digits := digitsInput.filter Char.isDigit
  match digits with
  | [] => true
  | c :: rest => c.isDigit && rest ≠ [] && rest.all (fun d => d = c)

/-- `validateRutFull`: decompose, require non-empty digits and verifier,
valid digit shape, and the computed verifier equal to the supplied one
upper-cased. -/
def validateRutFull (fullRut : Str) : Bool :=
  if fullRut = [] then false else
  let p := deconstructRut fullRut
  if p.1 = [] ∨ p.2 = [] then false else
  if ¬ isDigitsValid p.1 then false else
  match calculateRutVerifier p.1 with
  | none => false
  | some e => decide (e = p.2.map Char.toUpper)

/-- The three output layouts of `formatRut`. -/
inductive RutFormat | dotdash | dash | nodash
deriving DecidableEq

/-- The replacement `padded.replace(/^0+(?=\d)/, "")`: greedily remove
leading zeros as long as a digit still follows. -/
def stripZeros : Str → Str
  | [] => []
  | [a] => [a]
  | a :: b :: rest =>
    if a = '0' ∧ b.isDigit then stripZeros (b :: rest) else a :: b :: rest

/-- One round of the dot-grouping loop of `formatRut`'s `dotdash` branch:
peel groups of three characters off the right end.  The fuel is an upper
bound on the number of loop iterations (each one shortens the string). -/
def groupAux : Nat → Str → List Str
  | _, [] => []
  | 0, a :: t => [a :: t]
  | fuel + 1, a :: t =>
    let l := a :: t
    if 3 < l.length then
      groupAux fuel (l.take (l.length - 3)) ++ [l.drop (l.length - 3)]
    else [l]

/-- The dot-grouping loop of `formatRut`'s `dotdash` branch: peel groups of
three characters off the right end until at most three remain. -/
def groupThrees (l : Str) : List Str := groupAux l.length l

/-- `formatRut`: render a RUT in the requested layout, computing the
verifier when absent and the digits are shape-valid, and stripping
leading zeros after padding to eight characters. -/
def formatRut (fullRut : Str) (format : RutFormat) : Str :=
  let cleaned := cleanRut fullRut
  if cleaned = [] then [] else
  let p := deconstructRut cleaned
  if p.1 = [] then [] else
  let digits := p.1
  let verifier :=
    if p.2 = [] ∧ isDigitsValid digits then (calculateRutVerifier digits).getD []
    else p.2
  if verifier = [] then [] else
  let padded := List.replicate (8 - digits.length) '0' ++ digits
  let s := stripZeros padded
  let digitsOnly := if s = [] then ['0'] else s
  match format with
  | .nodash => digitsOnly ++ verifier
  | .dotdash => List.intercalate ['.'] (groupThrees digitsOnly) ++ '-' :: verifier
  | .dash => digitsOnly ++ '-' :: verifier

/-- `validateRutDigitsOnly`: strip non-digits, then shape-valid and not
suspicious. -/
def validateRutDigitsOnly (digits : Str) : Bool :=
  let cleaned := digits.filter Char.isDigit
  isDigitsValid cleaned && ! isSuspiciousRut cleaned

/-- `normalizeRut`: clean, return short inputs as cleaned, otherwise format. -/
def normalizeRut (input : Str) (format : RutFormat) : Str :=
  if input = [] then [] else
  let cleaned := cleanRut input
  if cleaned = [] then [] else
  if cleaned.length < 7 then cleaned else
  formatRut cleaned format

/-- `compareRuts`: compare the `nodash` normalizations, requiring both to
be non-empty. -/
def compareRuts (rut1 rut2 : Str) : Bool :=
  let n1 := normalizeRut rut1 .nodash
  let n2 := normalizeRut rut2 .nodash
  if n1 = [] ∨ n2 = [] then false else decide (n1 = n2)

/-- `hasRutStructure`: cleaned length at least 3 and at least 3 digit
characters among the cleaned input. -/
def hasRutStructure (input : Str) : Bool :=
  if input = [] then false else
  let cleaned := cleanRut input
  if cleaned.length < 3 then false else
  decide (3 ≤ (cleaned.filter Char.isDigit).length)

/-- Reference definition of the check character, written from the spec's
words: scan the stripped digits right to left with the multiplier cycling
2,3,4,5,6,7,2,... (the multiplier of the i-th digit from the right is
2 + i mod 6), sum digit*multiplier, let raw = 11 - (sum mod 11), and map
raw = 11 to "0", raw = 10 to "K", and otherwise to the decimal digit
string of raw. -/
def specVerifier (digitsInput : Str) : Option Str :=
  let stripped := digitsInput.filter Char.isDigit
  if stripped = [] then none else
  let sum := (stripped.reverse.mapIdx (fun i c => (2 + i % 6) * (c.toNat - 48))).sum
  let raw := 11 - sum % 11
  some (if raw = 11 then ['0'] else if raw = 10 then ['K'] else Nat.toDigits 10 raw)

/-- JavaScript runtime values that can reach the library where the
TypeScript signatures say `string`: a string, `null`, `undefined`, a
number, or a boolean. -/
inductive JSVal
  | str (s : Str)
  | nullv
  | undef
  | num (n : Int)
  | boolv (b : Bool)
deriving DecidableEq

/-- The one runtime error relevant here: accessing `.replace` on a value
that is not a string raises a `TypeError`. -/
inductive JSError | typeError
deriving DecidableEq

/-- JavaScript truthiness of the modelled values. -/
def truthy : JSVal → Bool
  | .str s => decide (s ≠ [])
  | .nullv => false
  | .undef => false
  | .num n => decide (n ≠ 0)
  | .boolv b => b

/-- `isDigitsValid` at runtime: the `!digitsInput` guard returns false for
every falsy value; a truthy non-string value then crashes on
`digitsInput.replace`. -/
def isDigitsValidJS (v : JSVal) : Except JSError Bool :=
  if truthy v = false then .ok false else
  match v with
  | .str s => .ok (isDigitsValid s)
  | _ => .error .typeError

/-- `isSuspiciousRut` at runtime: no guard at all — it calls
`digitsInput.replace` immediately, so every non-string value throws. -/
def isSuspiciousRutJS : JSVal → Except JSError Bool
  | .str s => .ok (isSuspiciousRut s)
  | _ => .error .typeError

/-- `validateRutFull` at runtime: the `typeof fullRut !== "string"` guard
returns false for every non-string value, and `!fullRut` for the empty
string; no exception is possible. -/
def validateRutFullJS : JSVal → Except JSError Bool
  | .str s => .ok (validateRutFull s)
  | _ => .ok false

/-- `validateRutDigitsOnly` at runtime: it calls `digits.replace`
immediately, so every non-string value throws. -/
def validateRutDigitsOnlyJS : JSVal → Except JSError Bool
  | .str s => .ok (validateRutDigitsOnly s)
  | _ => .error .typeError

/-- `hasRutStructure` at runtime: the `!input` guard returns false for
every falsy value; a truthy non-string value then crashes inside
`cleanRut` on `input.replace`. -/
def hasRutStructureJS (v : JSVal) : Except JSError Bool :=
  if truthy v = false then .ok false else
  match v with
  | .str s => .ok (hasRutStructure s)
  | _ => .error .typeError

/-! Helper lemmas about characters and `cleanRut`. -/

theorem toUpper_of_isDigit (c : Char) (h : c.isDigit = true) : c.toUpper = c := by
  simp only [Char.isDigit, Bool.and_eq_true, decide_eq_true_eq] at h
  have h3 : c.val.toNat ≤ 57 := h.2
  simp only [Char.toUpper, Char.toNat]
  rw [if_neg]
  rintro ⟨h1, -⟩
  omega

theorem ne_upK_of_isDigit (c : Char) (h : c.isDigit = true) : c ≠ 'K' := by
  rintro rfl; simp [Char.isDigit] at h

theorem ne_lowk_of_isDigit (c : Char) (h : c.isDigit = true) : c ≠ 'k' := by
  rintro rfl; simp [Char.isDigit] at h

theorem isRutChar_of_isDigit (c : Char) (h : c.isDigit = true) : isRutChar c = true := by
  simp [isRutChar, h]

theorem cleanRut_nil : cleanRut [] = [] := rfl

theorem ne_nil_of_cleanRut {l : Str} (h : cleanRut l ≠ []) : l ≠ [] := by
  rintro rfl; exact h cleanRut_nil

theorem cleanRut_append (l m : Str) :
    cleanRut (l ++ m) = cleanRut l ++ cleanRut m := by
  simp [cleanRut, List.filter_append]

theorem mem_cleanRut {c : Char} {l : Str} (h : c ∈ cleanRut l) :
    c.isDigit = true ∨ c = 'K' := by
  simp only [cleanRut, List.mem_map, List.mem_filter] at h
  obtain ⟨d, ⟨-, hd⟩, rfl⟩ := h
  simp only [isRutChar, Bool.or_eq_true, decide_eq_true_eq] at hd
  rcases hd with (hd | rfl) | rfl
  · left; rw [toUpper_of_isDigit d hd]; exact hd
  · right; rfl
  · right; rfl

theorem cleanRut_of_forall {l : Str} (h : ∀ c ∈ l, c.isDigit = true ∨ c = 'K') :
    cleanRut l = l := by
  unfold cleanRut
  rw [List.filter_eq_self.mpr]
  · induction l with
    | nil => rfl
    | cons a t ih =>
      have ha : a.toUpper = a := by
        rcases h a (List.mem_cons_self a t) with hd | rfl
        · exact toUpper_of_isDigit a hd
        · rfl
      simp only [List.map_cons, ha, List.cons.injEq, true_and]
      exact ih (fun c hc => h c (List.mem_cons_of_mem a hc))
  · intro c hc
    rcases h c hc with hd | rfl
    · exact isRutChar_of_isDigit c hd
    · rfl

theorem cleanRut_idem (l : Str) : cleanRut (cleanRut l) = cleanRut l :=
  cleanRut_of_forall (fun _ hc => mem_cleanRut hc)

theorem cleanRut_of_digits {l : Str} (h : l.all Char.isDigit = true) :
    cleanRut l = l :=
  cleanRut_of_forall (fun c hc => Or.inl (List.all_eq_true.mp h c hc))

/-! Helper lemmas about `stripZeros`, `groupThrees` and the dot-join. -/

theorem stripZeros_of_head {l : Str} (h : l.headD ' ' ≠ '0') : stripZeros l = l := by
  match l with
  | [] => rfl
  | [a] => rfl
  | a :: b :: rest =>
    simp only [List.headD_cons] at h
    rw [stripZeros, if_neg]
    rintro ⟨rfl, -⟩
    exact h rfl

theorem groupAux_flatten : ∀ (fuel : Nat) (l : Str), (groupAux fuel l).flatten = l := by
  intro fuel
  induction fuel with
  | zero =>
    intro l
    match l with
    | [] => rfl
    | a :: t => simp [groupAux]
  | succ n ih =>
    intro l
    match l with
    | [] => rfl
    | a :: t =>
      rw [groupAux]
      split
      · simp [ih]
      · simp

theorem groupThrees_flatten (l : Str) : (groupThrees l).flatten = l :=
  groupAux_flatten l.length l

theorem filter_intercalate_dot (parts : List Str) :
    (List.intercalate ['.'] parts).filter isRutChar = parts.flatten.filter isRutChar := by
  match parts with
  | [] => rfl
  | [a] => simp [List.intercalate]
  | a :: b :: t =>
    have ih := filter_intercalate_dot (b :: t)
    have hsplit : List.intercalate ['.'] (a :: b :: t) =
        a ++ ['.'] ++ List.intercalate ['.'] (b :: t) := by
      simp [List.intercalate, List.intersperse]
    rw [hsplit, List.filter_append, List.filter_append, ih]
    simp [isRutChar]

theorem cleanRut_intercalate_dot (parts : List Str) :
    cleanRut (List.intercalate ['.'] parts) = cleanRut parts.flatten := by
  unfold cleanRut
  rw [filter_intercalate_dot]

theorem cleanRut_dotflatten (l : Str) :
    cleanRut (List.intercalate ['.'] (groupThrees l)) = cleanRut l := by
  rw [cleanRut_intercalate_dot, groupThrees_flatten]

/-! Helper lemmas about the verifier, the decomposer, the validator and the formatter. -/

theorem filter_isDigit_all (l : Str) : (l.filter Char.isDigit).all Char.isDigit = true := by
  rw [List.all_eq_true]
  intro c hc
  exact (List.mem_filter.mp hc).2

theorem calc_shape (l : Str) (h : l.filter Char.isDigit ≠ []) :
    ∃ r, calculateRutVerifier l = some r ∧
      (r = ['K'] ∨ ∃ c, r = [c] ∧ c.isDigit = true) := by
  have hl : l ≠ [] := by rintro rfl; exact h rfl
  rw [calculateRutVerifier, if_neg hl]
  simp only
  rw [if_neg (not_not_intro ⟨h, filter_isDigit_all l⟩)]
  refine ⟨_, rfl, ?_⟩
  set sum := ((List.filter Char.isDigit l).reverse.foldl dvStep (0, 2)).1 with hsum
  have hm : sum % 11 < 11 := Nat.mod_lt _ (by norm_num)
  by_cases h11 : 11 - sum % 11 = 11
  · rw [if_pos h11]; exact Or.inr ⟨'0', rfl, by decide⟩
  · rw [if_neg h11]
    by_cases h10 : 11 - sum % 11 = 10
    · rw [if_pos h10]; exact Or.inl rfl
    · rw [if_neg h10]
      right
      have h1 : 1 ≤ 11 - sum % 11 := by omega
      have h9 : 11 - sum % 11 ≤ 9 := by omega
      set dv := 11 - sum % 11 with hdv
      interval_cases dv <;> exact ⟨_, rfl, by decide⟩

theorem calc_ne_nil (l r : Str) (hc : calculateRutVerifier l = some r)
    (hr : r = ['K'] ∨ ∃ c, r = [c] ∧ c.isDigit = true) : r ≠ [] := by
  rcases hr with rfl | ⟨c, rfl, -⟩ <;> simp

theorem map_toUpper_shape (r : Str)
    (hr : r = ['K'] ∨ ∃ c, r = [c] ∧ c.isDigit = true) : r.map Char.toUpper = r := by
  rcases hr with rfl | ⟨c, rfl, hc⟩
  · rfl
  · simp [toUpper_of_isDigit c hc]

theorem cleanRut_shape (r : Str)
    (hr : r = ['K'] ∨ ∃ c, r = [c] ∧ c.isDigit = true) : cleanRut r = r := by
  apply cleanRut_of_forall
  rcases hr with rfl | ⟨c, rfl, hc⟩
  · intro c hc; simp at hc; right; exact hc
  · intro d hd; simp at hd; subst hd; left; exact hc

theorem deconstruct_cleanRut_arg (l : Str) :
    deconstructRut (cleanRut l) = deconstructRut l := by
  unfold deconstructRut
  rw [cleanRut_idem]

theorem deconstruct_concat_digit (d : Str) (c : Char)
    (hd : d.all Char.isDigit = true) (h8 : d.length = 8) (hc : c.isDigit = true) :
    deconstructRut (d ++ [c]) = (d, [c]) := by
  have hclean : cleanRut (d ++ [c]) = d ++ [c] := by
    apply cleanRut_of_forall
    intro x hx
    rcases List.mem_append.mp hx with hx | hx
    · exact Or.inl (List.all_eq_true.mp hd x hx)
    · simp at hx; subst hx; exact Or.inl hc
  have hne : d ++ [c] ≠ [] := by simp
  have hlast : (d ++ [c]).getLastD ' ' = c := List.getLastD_concat ' ' c d
  have hall : (d ++ [c]).all Char.isDigit = true := by
    rw [List.all_eq_true] at hd ⊢
    intro x hx
    rcases List.mem_append.mp hx with hx | hx
    · exact hd x hx
    · simp at hx; subst hx; exact hc
  have hlen : (d ++ [c]).length = 9 := by simp [h8]
  rw [deconstructRut]
  rw [hclean]
  rw [if_neg hne, hlast, if_neg (by rintro (rfl | rfl) <;> simp [Char.isDigit] at hc),
    if_pos hall, if_pos hlen, List.dropLast_concat]

theorem deconstruct_concat_K (d : Str) (hd : d.all Char.isDigit = true) :
    deconstructRut (d ++ ['K']) = (d, ['K']) := by
  have hclean : cleanRut (d ++ ['K']) = d ++ ['K'] := by
    apply cleanRut_of_forall
    intro x hx
    rcases List.mem_append.mp hx with hx | hx
    · exact Or.inl (List.all_eq_true.mp hd x hx)
    · simp at hx; subst hx; exact Or.inr rfl
  have hne : d ++ ['K'] ≠ [] := by simp
  have hlast : (d ++ ['K']).getLastD ' ' = 'K' := List.getLastD_concat ' ' 'K' d
  rw [deconstructRut]
  rw [hclean]
  rw [if_neg hne, hlast, if_pos (Or.inr rfl), List.dropLast_concat]

theorem isDigitsValid_of_8 (d : Str) (hd : d.all Char.isDigit = true)
    (h8 : d.length = 8) : isDigitsValid d = true := by
  have hne : d ≠ [] := by rintro rfl; simp at h8
  have hfe : d.filter Char.isDigit = d :=
    List.filter_eq_self.mpr (List.all_eq_true.mp hd)
  rw [isDigitsValid, if_neg hne]
  simp [hfe, hd, h8]

theorem validate_of_cleanRut (x d r : Str) (hx : cleanRut x = d ++ r)
    (hd : d.all Char.isDigit = true) (h8 : d.length = 8)
    (hcalc : calculateRutVerifier d = some r)
    (hr : r = ['K'] ∨ ∃ c, r = [c] ∧ c.isDigit = true) :
    validateRutFull x = true := by
  have hdne : d ≠ [] := by rintro rfl; simp at h8
  have hrne : r ≠ [] := calc_ne_nil d r hcalc hr
  have hxne : x ≠ [] := by
    rintro rfl
    rw [cleanRut_nil] at hx
    exact hdne (List.append_eq_nil.mp hx.symm).1
  have hdec : deconstructRut x = (d, r) := by
    rw [← deconstruct_cleanRut_arg, hx]
    rcases hr with rfl | ⟨c, rfl, hc⟩
    · exact deconstruct_concat_K d hd
    · exact deconstruct_concat_digit d c hd h8 hc
  rw [validateRutFull, if_neg hxne]
  simp only [hdec]
  rw [if_neg (by push_neg; exact ⟨hdne, hrne⟩)]
  rw [if_neg (by rw [isDigitsValid_of_8 d hd h8]; simp)]
  rw [hcalc]
  simp [map_toUpper_shape r hr]

theorem formatRut_render (b d v r : Str) (format : RutFormat)
    (hb : cleanRut b ≠ [])
    (hdec : deconstructRut b = (d, v))
    (hver : (if v = [] ∧ isDigitsValid d = true then (calculateRutVerifier d).getD [] else v) = r)
    (hrne : r ≠ [])
    (h8 : d.length = 8) (hz : d.headD ' ' ≠ '0') :
    formatRut b format =
      match format with
      | .nodash => d ++ r
      | .dotdash => List.intercalate ['.'] (groupThrees d) ++ '-' :: r
      | .dash => d ++ '-' :: r := by
  have hdne : d ≠ [] := by rintro rfl; simp at h8
  have hpad : List.replicate (8 - d.length) '0' ++ d = d := by
    rw [h8]; simp
  have hstrip : stripZeros d = d := stripZeros_of_head hz
  rw [formatRut]
  simp only [deconstruct_cleanRut_arg, hdec, if_neg hb]
  rw [if_neg hdne]
  simp only [hver, hpad, hstrip]
  rw [if_neg hrne, if_neg hdne]

theorem factor_next (k : Nat) :
    (if 2 + k % 6 = 7 then 2 else (2 + k % 6) + 1) = 2 + (k + 1) % 6 := by
  by_cases h : k % 6 = 5
  · rw [if_pos (by omega)]; omega
  · rw [if_neg (by omega)]; omega

theorem dvFold_eq (l : Str) : ∀ (k s : Nat),
    l.foldl dvStep (s, 2 + k % 6) =
      (s + (l.mapIdx (fun i c => (2 + (k + i) % 6) * (c.toNat - 48))).sum,
        2 + (k + l.length) % 6) := by
  induction l with
  | nil => intro k s; simp
  | cons c t ih =>
    intro k s
    rw [List.foldl_cons]
    have hstep : dvStep (s, 2 + k % 6) c =
        (s + (2 + k % 6) * (c.toNat - 48), 2 + (k + 1) % 6) := by
      simp only [dvStep, factor_next, Nat.mul_comm]
    rw [hstep, ih (k + 1)]
    have hfun : (t.mapIdx fun i c => (2 + (k + 1 + i) % 6) * (c.toNat - 48)) =
        (t.mapIdx fun i c => (2 + (k + (i + 1)) % 6) * (c.toNat - 48)) := by
      congr 1
      funext i c
      have : k + 1 + i = k + (i + 1) := by omega
      rw [this]
    rw [hfun, Prod.mk.injEq]
    constructor
    · rw [List.mapIdx_cons]
      simp [List.sum_cons]
      omega
    · have : k + 1 + t.length = k + (t.length + 1) := by omega
      rw [this]
      simp

theorem calc_eq_spec (l : Str) : calculateRutVerifier l = specVerifier l := by
  by_cases hl : l = []
  · subst hl; rfl
  · rw [calculateRutVerifier, if_neg hl, specVerifier]
    by_cases hf : l.filter Char.isDigit = []
    · rw [if_pos hf, if_pos (by simp [hf])]
    · rw [if_neg hf, if_neg (not_not_intro ⟨hf, filter_isDigit_all l⟩)]
      have hsum : ((l.filter Char.isDigit).reverse.foldl dvStep (0, 2)).1 =
          ((l.filter Char.isDigit).reverse.mapIdx
            (fun i c => (2 + i % 6) * (c.toNat - 48))).sum := by
        have h0 : (2 : Nat) = 2 + 0 % 6 := by norm_num
        rw [h0, dvFold_eq _ 0 0]
        simp
      rw [hsum]

theorem getLastD_mem {l : Str} (h : l ≠ []) (a : Char) : l.getLastD a ∈ l := by
  rw [List.getLastD_eq_getLast? a l, List.getLast?_eq_getLast l h]
  exact List.getLast_mem h

theorem deconstruct_lastK (l : Str) (hne : cleanRut l ≠ [])
    (hK : (cleanRut l).getLastD ' ' = 'K') :
    deconstructRut l = ((cleanRut l).dropLast, ['K']) := by
  rw [deconstructRut]
  simp only
  rw [if_neg hne, hK, if_pos (Or.inr rfl)]

theorem deconstruct_digits9 (l : Str) (hall : (cleanRut l).all Char.isDigit = true)
    (hlen : (cleanRut l).length = 9) :
    deconstructRut l = ((cleanRut l).dropLast, [(cleanRut l).getLastD ' ']) := by
  have hne : cleanRut l ≠ [] := by intro h; rw [h] at hlen; simp at hlen
  have hdig : ((cleanRut l).getLastD ' ').isDigit = true :=
    List.all_eq_true.mp hall _ (getLastD_mem hne ' ')
  rw [deconstructRut]
  simp only
  rw [if_neg hne,
    if_neg (by rintro (h | h) <;> rw [h] at hdig <;> simp [Char.isDigit] at hdig),
    if_pos hall, if_pos hlen]

theorem deconstruct_digits_6to8 (l : Str) (hall : (cleanRut l).all Char.isDigit = true)
    (h6 : 6 ≤ (cleanRut l).length) (h8 : (cleanRut l).length ≤ 8) :
    deconstructRut l = (cleanRut l, []) := by
  have hne : cleanRut l ≠ [] := by intro h; rw [h] at h6; simp at h6
  have hdig : ((cleanRut l).getLastD ' ').isDigit = true :=
    List.all_eq_true.mp hall _ (getLastD_mem hne ' ')
  rw [deconstructRut]
  simp only
  rw [if_neg hne,
    if_neg (by rintro (h | h) <;> rw [h] at hdig <;> simp [Char.isDigit] at hdig),
    if_pos hall, if_neg (by omega)]
  by_cases hl8 : (cleanRut l).length = 8
  · rw [if_pos hl8]
  · rw [if_neg hl8, if_pos (by omega)]

theorem deconstruct_digits8 (l : Str) (hall : (cleanRut l).all Char.isDigit = true)
    (hlen : (cleanRut l).length = 8) :
    deconstructRut l = (cleanRut l, []) :=
  deconstruct_digits_6to8 l hall (by omega) (by omega)

theorem formatRut_cleanRut_arg (l : Str) (f : RutFormat) :
    formatRut (cleanRut l) f = formatRut l f := by
  unfold formatRut
  rw [cleanRut_idem]

theorem normalize_eq_format (l : Str) (h : 7 ≤ (cleanRut l).length) :
    normalizeRut l .nodash = formatRut l .nodash := by
  have hcne : cleanRut l ≠ [] := by intro hc; rw [hc] at h; simp at h
  rw [normalizeRut, if_neg (ne_nil_of_cleanRut hcne)]
  simp only
  rw [if_neg hcne, if_neg (by omega), formatRut_cleanRut_arg]

theorem headD_append (d m : Str) (hd : d ≠ []) (x : Char) :
    (d ++ m).headD x = d.headD x := by
  match d with
  | [] => exact absurd rfl hd
  | a :: t => rfl

theorem cleanRut_cons_dash (r : Str) : cleanRut ('-' :: r) = cleanRut r := by
  simp [cleanRut, isRutChar]

/-! Claim theorems. -/

/-- C2: validateRutFull applies no suspicious-pattern filter: any input whose
decomposition has a non-empty body of valid shape and a non-empty check
character matching the computed one validates, even for the repeated-digit
body 11111111, which validateRutDigitsOnly rejects. -/
theorem c2_full_validation_no_suspicion_filter :
    (∀ l : Str, (deconstructRut l).1 ≠ [] → (deconstructRut l).2 ≠ [] →
      isDigitsValid (deconstructRut l).1 = true →
      calculateRutVerifier (deconstructRut l).1 =
        some ((deconstructRut l).2.map Char.toUpper) →
      validateRutFull l = true) ∧
    validateRutFull ("11.111.111-1".toList) = true ∧
    isSuspiciousRut ("11111111".toList) = true ∧
    validateRutDigitsOnly ("11111111".toList) = false := by
  refine ⟨?_, by decide, by decide, by decide⟩
  intro l h1 h2 h3 h4
  have hl : l ≠ [] := by
    rintro rfl
    exact h1 rfl
  rw [validateRutFull, if_neg hl]
  simp only
  rw [if_neg (by push_neg; exact ⟨h1, h2⟩), if_neg (by rw [h3]; simp), h4]
  simp

/-- C5: calculateRutVerifier agrees everywhere with the spec's weighted
modulo-11 reference definition; the two documented values hold, and the
result is null exactly when the stripped input has no digit content. -/
theorem c5_verifier_matches_reference :
    (∀ l : Str, calculateRutVerifier l = specVerifier l) ∧
    calculateRutVerifier ("11111111".toList) = some ("1".toList) ∧
    calculateRutVerifier ("24965106".toList) = some ("0".toList) ∧
    (∀ l : Str, calculateRutVerifier l = none ↔ l.filter Char.isDigit = []) := by
  refine ⟨calc_eq_spec, by decide, by decide, ?_⟩
  intro l
  constructor
  · intro h
    by_contra hf
    obtain ⟨r, hr, -⟩ := calc_shape l hf
    rw [h] at hr
    cases hr
  · intro hf
    by_cases hl : l = []
    · rw [hl]; rfl
    · rw [calculateRutVerifier, if_neg hl, if_pos (by simp [hf])]

/-- C6: the decomposer's rule table: a sanitized token ending in K splits
as (all but last, K) regardless of length; a pure-digit token of length 9
splits as (first 8, last); a pure-digit token of length 8 keeps all 8
digits with an empty check character. -/
theorem c6_decomposer_rule_table :
    (∀ l : Str, cleanRut l ≠ [] → (cleanRut l).getLastD ' ' = 'K' →
      deconstructRut l = ((cleanRut l).dropLast, ['K'])) ∧
    (∀ l : Str, (cleanRut l).all Char.isDigit = true → (cleanRut l).length = 9 →
      deconstructRut l = ((cleanRut l).take 8, [(cleanRut l).getLastD ' '])) ∧
    (∀ l : Str, (cleanRut l).all Char.isDigit = true → (cleanRut l).length = 8 →
      deconstructRut l = (cleanRut l, [])) ∧
    deconstructRut ("800000-K".toList) = ("800000".toList, "K".toList) ∧
    deconstructRut ("123456789".toList) = ("12345678".toList, "9".toList) ∧
    deconstructRut ("12345678".toList) = ("12345678".toList, []) := by
  refine ⟨deconstruct_lastK, ?_, deconstruct_digits8, by decide, by decide, by decide⟩
  intro l hall hlen
  rw [deconstruct_digits9 l hall hlen, List.dropLast_eq_take]
  rw [hlen]

/-- C7 (amended): hasRutStructure holds exactly when the sanitized input
contains at least three decimal digits (a K does not count, so sanitized
length at least 3 alone is not enough). -/
theorem c7_structure_iff_three_digits (l : Str) :
    hasRutStructure l = true ↔ 3 ≤ ((cleanRut l).filter Char.isDigit).length := by
  rw [hasRutStructure]
  by_cases hl : l = []
  · subst hl
    rw [if_pos rfl]
    rw [cleanRut_nil]
    simp
  · rw [if_neg hl]
    simp only
    by_cases hlen : (cleanRut l).length < 3
    · rw [if_pos hlen]
      have hle := List.length_filter_le Char.isDigit (cleanRut l)
      constructor
      · intro h; cases h
      · intro h; omega
    · rw [if_neg hlen]
      simp

/-- C7 counterexample: the input 12K sanitizes to a token of length 3, yet
hasRutStructure rejects it, refuting the claim that sanitized length at
least 3 suffices. -/
theorem c7_structure_cex :
    (cleanRut ("12K".toList)).length = 3 ∧ hasRutStructure ("12K".toList) = false := by
  decide

/-- C10: an input sanitizing to pure digits of length 6 to 8 always fails
validateRutFull (the decomposer leaves its check character empty), while a
six-digit body with check character K, such as 800000K, is accepted. -/
theorem c10_bare_digit_bodies_rejected :
    (∀ l : Str, (cleanRut l).all Char.isDigit = true → 6 ≤ (cleanRut l).length →
      (cleanRut l).length ≤ 8 → validateRutFull l = false) ∧
    validateRutFull ("1234560".toList) = false ∧
    validateRutFull ("12345674".toList) = false ∧
    validateRutFull ("800000K".toList) = true := by
  refine ⟨?_, by decide, by decide, by decide⟩
  intro l hall h6 h8
  have hne : cleanRut l ≠ [] := by intro h; rw [h] at h6; simp at h6
  have hdec := deconstruct_digits_6to8 l hall h6 h8
  rw [validateRutFull, if_neg (ne_nil_of_cleanRut hne)]
  simp only [hdec]
  simp

/-- C9 counterexample: isSuspiciousRut called on null dereferences
null.replace and throws a TypeError instead of returning false. -/
theorem c9_totality_cex :
    isSuspiciousRutJS JSVal.nullv = Except.error JSError.typeError := rfl

/-- C9 (amended): validateRutFull returns false and never throws on every
non-string value, and all five predicates return a boolean (never throw)
on every string; but isSuspiciousRut and validateRutDigitsOnly throw a
TypeError on null, and isDigitsValid and hasRutStructure throw a
TypeError on a truthy non-string such as the number 1. -/
theorem c9_predicate_totality_amended :
    (∀ v : JSVal, (∀ s : Str, v ≠ JSVal.str s) → validateRutFullJS v = .ok false) ∧
    (∀ s : Str, isDigitsValidJS (JSVal.str s) = .ok (isDigitsValid s) ∧
      isSuspiciousRutJS (JSVal.str s) = .ok (isSuspiciousRut s) ∧
      validateRutDigitsOnlyJS (JSVal.str s) = .ok (validateRutDigitsOnly s) ∧
      validateRutFullJS (JSVal.str s) = .ok (validateRutFull s) ∧
      hasRutStructureJS (JSVal.str s) = .ok (hasRutStructure s)) ∧
    validateRutDigitsOnlyJS JSVal.nullv = .error JSError.typeError ∧
    isDigitsValidJS (JSVal.num 1) = .error JSError.typeError ∧
    hasRutStructureJS (JSVal.num 1) = .error JSError.typeError := by
  refine ⟨?_, ?_, rfl, rfl, rfl⟩
  · intro v hv
    cases v with
    | str s => exact absurd rfl (hv s)
    | nullv => rfl
    | undef => rfl
    | num n => rfl
    | boolv b => rfl
  · intro s
    refine ⟨?_, rfl, rfl, rfl, ?_⟩
    · cases s with
      | nil => rfl
      | cons a t =>
        rw [isDigitsValidJS]
        rw [if_neg (by simp [truthy])]
    · cases s with
      | nil => rfl
      | cons a t =>
        rw [hasRutStructureJS]
        rw [if_neg (by simp [truthy])]

/-- C1 counterexample: the body 123456 passes isDigitsValid, yet
formatRut renders it as 123456-0, which sanitizes to seven pure digits,
is decomposed with an empty check character, and fails validateRutFull. -/
theorem c1_roundtrip_cex :
    isDigitsValid ("123456".toList) = true ∧
    formatRut ("123456".toList) .dash = "123456-0".toList ∧
    validateRutFull (formatRut ("123456".toList) .dash) = false := by
  decide

/-- C1 (amended): the format-then-validate round trip holds, in all three
formats, for every body whose sanitized form is exactly eight decimal
digits with no leading zero. -/
theorem c1_roundtrip_amended (b : Str) (f : RutFormat)
    (hall : (cleanRut b).all Char.isDigit = true)
    (hlen : (cleanRut b).length = 8)
    (hz : (cleanRut b).headD ' ' ≠ '0') :
    validateRutFull (formatRut b f) = true := by
  have hcne : cleanRut b ≠ [] := by intro h; rw [h] at hlen; simp at hlen
  have hdec : deconstructRut b = (cleanRut b, []) := deconstruct_digits8 b hall hlen
  have hfd : (cleanRut b).filter Char.isDigit = cleanRut b :=
    List.filter_eq_self.mpr (List.all_eq_true.mp hall)
  obtain ⟨r, hcalc, hshape⟩ := calc_shape (cleanRut b) (by rw [hfd]; exact hcne)
  have hrne : r ≠ [] := calc_ne_nil _ r hcalc hshape
  have hver : (if ([] : Str) = [] ∧ isDigitsValid (cleanRut b) = true
      then (calculateRutVerifier (cleanRut b)).getD [] else []) = r := by
    rw [if_pos ⟨rfl, isDigitsValid_of_8 _ hall hlen⟩, hcalc]
    rfl
  have hcr : cleanRut r = r := cleanRut_shape r hshape
  have hcd : cleanRut (cleanRut b) = cleanRut b := cleanRut_idem b
  cases f with
  | dotdash =>
    have hrender : formatRut b .dotdash =
        List.intercalate ['.'] (groupThrees (cleanRut b)) ++ '-' :: r :=
      formatRut_render b (cleanRut b) [] r .dotdash hcne hdec hver hrne hlen hz
    rw [hrender]
    apply validate_of_cleanRut _ (cleanRut b) r _ hall hlen hcalc hshape
    rw [cleanRut_append, cleanRut_cons_dash, hcr, cleanRut_dotflatten, hcd]
  | dash =>
    have hrender : formatRut b .dash = cleanRut b ++ '-' :: r :=
      formatRut_render b (cleanRut b) [] r .dash hcne hdec hver hrne hlen hz
    rw [hrender]
    apply validate_of_cleanRut _ (cleanRut b) r _ hall hlen hcalc hshape
    rw [cleanRut_append, cleanRut_cons_dash, hcr, hcd]
  | nodash =>
    have hrender : formatRut b .nodash = cleanRut b ++ r :=
      formatRut_render b (cleanRut b) [] r .nodash hcne hdec hver hrne hlen hz
    rw [hrender]
    apply validate_of_cleanRut _ (cleanRut b) r _ hall hlen hcalc hshape
    rw [cleanRut_append, hcr, hcd]

/-- C1 witness: the round trip at the concrete body 12345678 in the dash
format. -/
theorem c1_roundtrip_witness :
    validateRutFull (formatRut ("12345678".toList) .dash) = true :=
  c1_roundtrip_amended ("12345678".toList) .dash (by decide) (by decide) (by decide)

/-- C3 counterexample: at the pair of inputs "1" and "1" compareRuts
returns true, yet formatRut yields the empty string for "1", so the claimed
equivalence with non-empty equal formatRut results fails. -/
theorem c3_compare_cex :
    compareRuts ("1".toList) ("1".toList) = true ∧
    formatRut ("1".toList) .nodash = [] := by
  decide

/-- C3 (amended): compareRuts agrees with the non-empty-equal-formatRut
characterization whenever both inputs sanitize to at least seven
characters (shorter inputs are compared by their cleaned text instead,
because normalizeRut bypasses formatRut below length 7). -/
theorem c3_compare_amended (a b : Str) (ha : 7 ≤ (cleanRut a).length)
    (hb : 7 ≤ (cleanRut b).length) :
    compareRuts a b = true ↔
      (formatRut a .nodash = formatRut b .nodash ∧ formatRut a .nodash ≠ []) := by
  have hna := normalize_eq_format a ha
  have hnb := normalize_eq_format b hb
  rw [compareRuts]
  simp only [hna, hnb]
  by_cases h1 : formatRut a .nodash = []
  · rw [if_pos (Or.inl h1)]
    simp [h1]
  · by_cases h2 : formatRut b .nodash = []
    · rw [if_pos (Or.inr h2)]
      simp [h2, h1]
    · rw [if_neg (by push_neg; exact ⟨h1, h2⟩)]
      constructor
      · intro h
        exact ⟨of_decide_eq_true h, h1⟩
      · intro h
        exact decide_eq_true h.1

/-- C3 witness: the amended equivalence at the concrete pair 12345678 and
12.345.678. -/
theorem c3_compare_witness :
    compareRuts ("12345678".toList) ("12.345.678".toList) = true ↔
      (formatRut ("12345678".toList) .nodash =
        formatRut ("12.345.678".toList) .nodash ∧
       formatRut ("12345678".toList) .nodash ≠ []) :=
  c3_compare_amended ("12345678".toList) ("12.345.678".toList) (by decide) (by decide)

/-- C8 counterexample: for the input 123456 the dotdash rendering is
123.456-0, whose re-formatting in the dash layout is 1234560-7, while the
direct dash formatting is 123456-0 — re-formatting is not stable. -/
theorem c8_reformat_cex :
    formatRut (formatRut ("123456".toList) .dotdash) .dash = "1234560-7".toList ∧
    formatRut ("123456".toList) .dash = "123456-0".toList ∧
    formatRut (formatRut ("123456".toList) .dotdash) .dash ≠
      formatRut ("123456".toList) .dash := by
  decide

/-- C8 (amended): re-formatting is stable for every input sanitizing to
nine decimal digits with no leading zero (an eight-digit body plus an
explicit decimal check digit). -/
theorem c8_reformat_amended (x : Str)
    (hall : (cleanRut x).all Char.isDigit = true)
    (hlen : (cleanRut x).length = 9)
    (hz : (cleanRut x).headD ' ' ≠ '0') :
    formatRut (formatRut x .dotdash) .dash = formatRut x .dash := by
  have hne : cleanRut x ≠ [] := by intro h; rw [h] at hlen; simp at hlen
  have hsplit : (cleanRut x).dropLast ++ [(cleanRut x).getLastD ' '] = cleanRut x := by
    rw [List.getLastD_eq_getLast? ' ' (cleanRut x), List.getLast?_eq_getLast _ hne]
    exact List.dropLast_append_getLast hne
  set d := (cleanRut x).dropLast with hd
  set c := (cleanRut x).getLastD ' ' with hc
  have hdlen : d.length = 8 := by rw [hd, List.length_dropLast, hlen]
  have hdall : d.all Char.isDigit = true := by
    rw [List.all_eq_true] at hall ⊢
    intro y hy
    exact hall y ((List.dropLast_sublist (cleanRut x)).subset hy)
  have hcd : c.isDigit = true := List.all_eq_true.mp hall c (getLastD_mem hne ' ')
  have hdne : d ≠ [] := by intro h; rw [h] at hdlen; simp at hdlen
  have hdz : d.headD ' ' ≠ '0' := by
    rw [← hsplit, headD_append d [c] hdne ' '] at hz
    exact hz
  have hdec : deconstructRut x = (d, [c]) := deconstruct_digits9 x hall hlen
  have hver : (if ([c] : Str) = [] ∧ isDigitsValid d = true
      then (calculateRutVerifier d).getD [] else [c]) = [c] := by
    rw [if_neg]
    rintro ⟨h, -⟩
    cases h
  have hy : formatRut x .dotdash = List.intercalate ['.'] (groupThrees d) ++ '-' :: [c] :=
    formatRut_render x d [c] [c] .dotdash hne hdec hver (by simp) hdlen hdz
  have hcleany : cleanRut (formatRut x .dotdash) = d ++ [c] := by
    rw [hy, cleanRut_append, cleanRut_cons_dash, cleanRut_dotflatten,
      cleanRut_of_digits hdall, cleanRut_of_digits (by simp [hcd])]
  have hdecy : deconstructRut (formatRut x .dotdash) = (d, [c]) := by
    rw [← deconstruct_cleanRut_arg, hcleany]
    exact deconstruct_concat_digit d c hdall hdlen hcd
  have hcley : cleanRut (formatRut x .dotdash) ≠ [] := by rw [hcleany]; simp
  have hyd : formatRut (formatRut x .dotdash) .dash = d ++ '-' :: [c] :=
    formatRut_render _ d [c] [c] .dash hcley hdecy hver (by simp) hdlen hdz
  have hxd : formatRut x .dash = d ++ '-' :: [c] :=
    formatRut_render x d [c] [c] .dash hne hdec hver (by simp) hdlen hdz
  rw [hyd, hxd]

/-- C8 witness: stability at the concrete input 123456785. -/
theorem c8_reformat_witness :
    formatRut (formatRut ("123456785".toList) .dotdash) .dash =
      formatRut ("123456785".toList) .dash :=
  c8_reformat_amended ("123456785".toList) (by decide) (by decide) (by decide)

/-- C4 counterexample: deconstructRut keeps the letter K inside the digits
field for the mixed input 1K2, so the digits field is not digit-only. -/
theorem c4_invariant_cex :
    deconstructRut ("1K2".toList) = ("1K".toList, "2".toList) ∧
    (deconstructRut ("1K2".toList)).1.all Char.isDigit = false := by
  decide

/-- C4 (amended): for every input, the digits field of deconstructRut
contains only decimal digits and the letter K (the sanitizer's alphabet),
and the verifier field is empty, the single letter K, or a single decimal
digit. -/
theorem c4_deconstruct_invariant_amended (l : Str) :
    (∀ c ∈ (deconstructRut l).1, c.isDigit = true ∨ c = 'K') ∧
    ((deconstructRut l).2 = [] ∨ (deconstructRut l).2 = ['K'] ∨
      ∃ c, (deconstructRut l).2 = [c] ∧ c.isDigit = true) := by
  have hmem : ∀ c ∈ cleanRut l, c.isDigit = true ∨ c = 'K' :=
    fun c hc => mem_cleanRut hc
  rw [deconstructRut]
  simp only
  split
  · simp
  next hraw =>
    have hlastmem : (cleanRut l).getLastD ' ' ∈ cleanRut l := getLastD_mem hraw ' '
    split
    next hK =>
      refine ⟨?_, Or.inr (Or.inl rfl)⟩
      intro c hc
      exact hmem c ((List.dropLast_sublist (cleanRut l)).subset hc)
    next hnK =>
      have hlastdig : ((cleanRut l).getLastD ' ').isDigit = true := by
        rcases hmem _ hlastmem with hdig | hKc
        · exact hdig
        · exact absurd (Or.inr hKc) hnK
      split
      next hall =>
        split
        next h9 =>
          refine ⟨?_, Or.inr (Or.inr ⟨_, rfl, hlastdig⟩)⟩
          intro c hc
          exact hmem c ((List.dropLast_sublist (cleanRut l)).subset hc)
        next =>
          split
          next h8 => exact ⟨fun c hc => hmem c hc, Or.inl rfl⟩
          next =>
            split
            next h67 => exact ⟨fun c hc => hmem c hc, Or.inl rfl⟩
            next =>
              split
              next h1 =>
                refine ⟨?_, Or.inr (Or.inr ⟨_, rfl,
                  by rw [toUpper_of_isDigit _ hlastdig]; exact hlastdig⟩)⟩
                intro c hc
                exact hmem c ((List.dropLast_sublist (cleanRut l)).subset
                  (List.mem_of_mem_filter hc))
              next =>
                exact ⟨fun c hc => hmem c (List.mem_of_mem_filter hc), Or.inl rfl⟩
      next hnall =>
        split
        next h1 =>
          refine ⟨?_, Or.inr (Or.inr ⟨_, rfl,
            by rw [toUpper_of_isDigit _ hlastdig]; exact hlastdig⟩)⟩
          intro c hc
          exact hmem c ((List.dropLast_sublist (cleanRut l)).subset
            (List.mem_of_mem_filter hc))
        next =>
          exact ⟨fun c hc => hmem c (List.mem_of_mem_filter hc), Or.inl rfl⟩

end Rut
